import Mathlib

set_option maxHeartbeats 1000000

namespace SentraLab

/-!
Shallow embedding of the sentra-lab simulation engine core
(packages/engine/src), together with theorems settling the frozen
claims about its specification.
-/

/-! ## String helpers

Executable models of the Rust str operations used by the engine
(byte-wise on ASCII data, where Lean chars and Rust bytes coincide). -/

/-- Rust str::starts_with. -/
def strStartsWith (s p : String) : Bool := List.isPrefixOf p.data s.data

/-- Rust str::ends_with. -/
def strEndsWith (s p : String) : Bool := List.isSuffixOf p.data s.data

/-- Rust str slicing from a character index to the end. -/
def strDrop (s : String) (n : Nat) : String := String.mk (s.data.drop n)

/-- Rust lexicographic order on chars. -/
def charLt (a b : Char) : Bool := a.toNat < b.toNat

/-- Rust lexicographic order on char sequences. -/
def listLexLt : List Char → List Char → Bool
  | [], [] => false
  | [], _ :: _ => true
  | _ :: _, [] => false
  | a :: as, b :: bs => charLt a b || (a == b && listLexLt as bs)

/-- Rust lexicographic order on strings. -/
def strLexLt (a b : String) : Bool := listLexLt a.data b.data

/-! ## Routing table — src/packages/engine/src/interception/routing_table.rs -/

/-- A route definition, mirroring the Rust struct Route. -/
structure Route where
  domain : String
  target : String
  pathPrefix : Option String
  priority : Nat
deriving DecidableEq, Repr

/-- A routing-table snapshot: the entries of the underlying hash map in
iteration order; domains are unique hash-map keys. -/
abbrev RoutingTable := List Route

/-- RoutingTable::lookup: exact match first (hash-map get), then the first
entry in iteration order whose pattern starts with the two characters star
and dot and whose remaining suffix is a suffix (byte-wise) of the queried
domain. -/
def lookup (routes : RoutingTable) (domain : String) : Option Route :=
  match routes.find? (fun r => r.domain == domain) with
  | some r => some r
  | none =>
      routes.find? (fun r =>
        strStartsWith r.domain "*." && strEndsWith domain (strDrop r.domain 2))

/-- Modelled from the claim wording, for comparison with lookup: a wildcard
pattern matches exactly the proper sub-domains of its suffix. -/
def claimWildcardMatches (pattern domain : String) : Bool :=
  strStartsWith pattern "*." && strEndsWith domain ("." ++ strDrop pattern 2)

/-- Modelled from the claim wording, for comparison with lookup: among two
candidate wildcard routes, whether a beats b, by higher priority, then
longer suffix, then lexically smaller source-domain. -/
def claimBetter (a b : Route) : Bool :=
  a.priority > b.priority ||
    (a.priority == b.priority &&
      ((strDrop a.domain 2).length > (strDrop b.domain 2).length ||
        ((strDrop a.domain 2).length == (strDrop b.domain 2).length &&
          strLexLt a.domain b.domain)))

/-- Modelled from the claim wording, for comparison with lookup: exact match
wins; otherwise the best wildcard match under claimBetter is returned. -/
def claimLookup (routes : RoutingTable) (domain : String) : Option Route :=
  match routes.find? (fun r => r.domain == domain) with
  | some r => some r
  | none =>
      (routes.filter (fun r => claimWildcardMatches r.domain domain)).foldl
        (fun best r =>
          match best with
          | none => some r
          | some b => if claimBetter r b then some r else some b)
        none

/-- The two wildcard routes of the C1 failing input. -/
def routeLowPrio : Route := ⟨"*.a.com", "http://localhost:9001", none, 0⟩

def routeHighPrio : Route := ⟨"*.b.a.com", "http://localhost:9002", none, 5⟩

/-- The C1 failing routing-table snapshot, in the iteration order that
exhibits the divergence. -/
def tableC1 : RoutingTable := [routeLowPrio, routeHighPrio]

/-- The C2 wildcard route. -/
def routeWildOpenai : Route := ⟨"*.openai.com", "http://localhost:8080", none, 0⟩

/-! ## Claim C1 -/

/-- C1: on the snapshot holding wildcard routes for suffix a.com at
priority 0 and suffix b.a.com at priority 5, both matching the query
x.b.a.com, lookup returns the priority-0 route that comes first in
iteration order, while the claim (highest priority, then longest suffix)
demands the priority-5 route: the code never consults priority. -/
theorem lookup_ignores_priority :
    lookup tableC1 "x.b.a.com" = some routeLowPrio ∧
    claimLookup tableC1 "x.b.a.com" = some routeHighPrio ∧
    routeLowPrio ≠ routeHighPrio := by
  refine ⟨by decide, by decide, by decide⟩

/-! ## Claim C2 -/

/-- C2: with the single wildcard route for suffix openai.com, lookup does
return the route for proper sub-domains, but it also returns it for the
bare domain openai.com (the claim demands none there) and even for the
unrelated domain fooopenai.com, because the code tests ends_with on the
suffix without requiring a dot boundary. -/
theorem lookup_wildcard_matches_bare_domain :
    lookup [routeWildOpenai] "chat.openai.com" = some routeWildOpenai ∧
    lookup [routeWildOpenai] "openai.com" = some routeWildOpenai ∧
    lookup [routeWildOpenai] "fooopenai.com" = some routeWildOpenai := by
  refine ⟨by decide, by decide, by decide⟩

/-! ## Compressor — src/packages/engine/src/recording/compressor.rs -/

/-- Compression levels, mirroring the Rust enum CompressionLevel. -/
inductive CompressionLevel
  | fast
  | balanced
  | best
deriving DecidableEq, Repr

/-- CompressionLevel::as_i32. -/
def CompressionLevel.asI32 : CompressionLevel → Int
  | .fast => 1
  | .balanced => 3
  | .best => 19

/-- The zstd crate is an external dependency; its encode_all and decode_all
entry points are modelled as an abstract codec record over byte strings. -/
structure ZstdCodec where
  encodeAll : List Nat → Int → Except String (List Nat)
  decodeAll : List Nat → Except String (List Nat)

/-- The documented zstd contract: decode_all inverts encode_all at every
compression level. -/
def ZstdCodec.RoundTrip (z : ZstdCodec) : Prop :=
  ∀ (data : List Nat) (level : Int),
    ∃ out, z.encodeAll data level = .ok out ∧ z.decodeAll out = .ok data

/-- The Compressor struct: its only state is the configured level. -/
structure Compressor where
  level : CompressionLevel
deriving DecidableEq, Repr

/-- Compressor::new. -/
def Compressor.new (level : CompressionLevel) : Compressor := ⟨level⟩

/-- Compressor::compress: zstd encode_all at the configured level, errors
mapped to compression-failed. -/
def Compressor.compress (z : ZstdCodec) (c : Compressor) (data : List Nat) :
    Except String (List Nat) :=
  match z.encodeAll data c.level.asI32 with
  | .ok v => .ok v
  | .error e => .error ("Compression error: " ++ e)

/-- Compressor::decompress: zstd decode_all, errors mapped to
compression-failed. -/
def Compressor.decompress (z : ZstdCodec) (c : Compressor) (data : List Nat) :
    Except String (List Nat) :=
  match z.decodeAll data with
  | .ok v => .ok v
  | .error e => .error ("Decompression error: " ++ e)

/-- An identity codec trivially satisfying the zstd round-trip contract. -/
def idCodec : ZstdCodec :=
  ⟨fun data _ => .ok data, fun data => .ok data⟩

theorem idCodec_roundtrip : idCodec.RoundTrip :=
  fun data _ => ⟨data, rfl, rfl⟩

/-! ## Claim C3 -/

/-- C3: for every byte string x and every level in {fast, balanced, best}
(surfacing as integer levels 1, 3, 19), decompressing the compressed bytes
yields x again, assuming the external zstd codec meets its documented
round-trip contract; and the compressor is stateless: its output is a
function of the configured level and the input alone. -/
theorem compress_decompress_roundtrip (z : ZstdCodec) (hz : z.RoundTrip)
    (L : CompressionLevel) (x : List Nat) :
    (∃ y, (Compressor.new L).compress z x = .ok y ∧
      (Compressor.new L).decompress z y = .ok x) ∧
    (∀ c : Compressor, c.level = L →
      c.compress z x = (Compressor.new L).compress z x) ∧
    CompressionLevel.fast.asI32 = 1 ∧
    CompressionLevel.balanced.asI32 = 3 ∧
    CompressionLevel.best.asI32 = 19 := by
  obtain ⟨out, henc, hdec⟩ := hz x L.asI32
  refine ⟨⟨out, ?_, ?_⟩, ?_, rfl, rfl, rfl⟩
  · simp [Compressor.compress, Compressor.new, henc]
  · simp [Compressor.decompress, Compressor.new, hdec]
  · intro c hc
    simp [Compressor.compress, Compressor.new, hc]

/-- C3 witness: the round-trip theorem applied to the identity codec at
level fast on a concrete three-byte input. -/
theorem compress_decompress_roundtrip_witness :
    (∃ y, (Compressor.new .fast).compress idCodec [7, 0, 255] = .ok y ∧
      (Compressor.new .fast).decompress idCodec y = .ok [7, 0, 255]) ∧
    (∀ c : Compressor, c.level = .fast →
      c.compress idCodec [7, 0, 255] = (Compressor.new .fast).compress idCodec [7, 0, 255]) ∧
    CompressionLevel.fast.asI32 = 1 ∧
    CompressionLevel.balanced.asI32 = 3 ∧
    CompressionLevel.best.asI32 = 19 :=
  compress_decompress_roundtrip idCodec idCodec_roundtrip .fast [7, 0, 255]

/-! ## Event queue — src/packages/engine/src/recording/event_queue.rs -/

/-- Event kinds, mirroring the Rust enum EventType of recorder.rs. -/
inductive EventType
  | agentStarted
  | inputReceived
  | externalCallMade
  | externalCallCompleted
  | stateChanged
  | decisionMade
  | errorEncountered
  | outputProduced
  | agentCompleted
deriving DecidableEq, Repr

/-- An event record, mirroring the Rust struct Event of recorder.rs; the
structured data payload is abstracted as its serialized text. -/
structure Event where
  id : String
  runId : String
  eventType : EventType
  timestampNs : Nat
  data : String
  durationUs : Option Nat
deriving DecidableEq, Repr

/-- The EventQueue state: the bounded ArrayQueue contents in FIFO order
(head = oldest) plus the three atomic counters. -/
structure EventQueue where
  capacity : Nat
  buffer : List Event
  pushCount : Nat
  popCount : Nat
  dropCount : Nat
deriving Repr

/-- EventQueue::new. -/
def EventQueue.new (capacity : Nat) : EventQueue :=
  ⟨capacity, [], 0, 0, 0⟩

/-- EventQueue::push: enqueue and count on success; on a full queue, count a
drop and hand the event back to the caller. -/
def EventQueue.push (q : EventQueue) (e : Event) : EventQueue × Except Event Unit :=
  if q.buffer.length < q.capacity then
    ({ q with buffer := q.buffer ++ [e], pushCount := q.pushCount + 1 }, .ok ())
  else
    ({ q with dropCount := q.dropCount + 1 }, .error e)

/-- EventQueue::try_pop: dequeue the oldest event, if any, and count it. -/
def EventQueue.tryPop (q : EventQueue) : EventQueue × Option Event :=
  match q.buffer with
  | [] => (q, none)
  | e :: rest => ({ q with buffer := rest, popCount := q.popCount + 1 }, some e)

/-- Queue statistics, mirroring the Rust struct QueueStats. -/
structure QueueStats where
  pushCount : Nat
  popCount : Nat
  dropCount : Nat
  currentSize : Nat
  capacity : Nat
deriving DecidableEq, Repr

/-- EventQueue::stats. -/
def EventQueue.stats (q : EventQueue) : QueueStats :=
  ⟨q.pushCount, q.popCount, q.dropCount, q.buffer.length, q.capacity⟩

/-! ## Claim C4 -/

/-- C4: on a queue of capacity 2, pushes of A and B succeed, the push of C
returns C back to the caller as dropped without blocking, the drop counter
reads 1, and try_pop then yields A, then B, then none. -/
theorem eventqueue_overflow_scenario (A B C : Event) :
    ((EventQueue.new 2).push A).2 = .ok () ∧
    (((EventQueue.new 2).push A).1.push B).2 = .ok () ∧
    ((((EventQueue.new 2).push A).1.push B).1.push C).2 = .error C ∧
    ((((EventQueue.new 2).push A).1.push B).1.push C).1.stats.dropCount = 1 ∧
    (((((EventQueue.new 2).push A).1.push B).1.push C).1.tryPop).2 = some A ∧
    ((((((EventQueue.new 2).push A).1.push B).1.push C).1.tryPop).1.tryPop).2 = some B ∧
    (((((((EventQueue.new 2).push A).1.push B).1.push C).1.tryPop).1.tryPop).1.tryPop).2 = none :=
  ⟨rfl, rfl, rfl, rfl, rfl, rfl, rfl⟩

/-! ## Event storage — src/packages/engine/src/recording/storage.rs -/

/-- Zero-padded eight-digit batch number, as produced by the Rust
format string batch_{:08}. -/
def pad8 (n : Nat) : String :=
  String.mk (List.replicate (8 - (toString n).length) '0') ++ toString n

/-- The batch id written into the index row and the file name. -/
def batchIdString (n : Nat) : String := "batch_" ++ pad8 n

/-- A row of the event_batches table. -/
structure BatchRow where
  rowId : Nat
  batchId : String
  filePath : String
  eventCount : Int
  compressedSize : Int
  createdAt : Int
deriving DecidableEq, Repr

/-- A primitive durable operation performed by write_batch, in order. -/
inductive StorageOp
  | writeFile (path : String) (bytes : List Nat)
  | insertRow (row : BatchRow)
deriving DecidableEq, Repr

/-- The EventStorage state: the batch counter, the files in the events
directory, the index rows in insertion order, and the ordered trace of
durable operations. -/
structure StorageState where
  batchCounter : Nat
  files : List (String × List Nat)
  rows : List BatchRow
  ops : List StorageOp
deriving Repr

/-- A freshly opened storage: counter 0, no files, no rows. -/
def StorageState.init : StorageState := ⟨0, [], [], []⟩

/-- EventStorage::write_batch: allocate the next batch id, write the batch
file, then insert the index row (event_count hard-coded to 0 in the source,
compressed_size the payload length, created_at the current epoch second). -/
def writeBatch (st : StorageState) (data : List Nat) (now : Int) : StorageState :=
  let counter := st.batchCounter + 1
  let bid := batchIdString counter
  let path := "events/" ++ bid ++ ".zst"
  let row : BatchRow := ⟨st.rows.length + 1, bid, path, 0, (data.length : Int), now⟩
  { batchCounter := counter
    files := st.files ++ [(path, data)]
    rows := st.rows ++ [row]
    ops := st.ops ++ [.writeFile path data, .insertRow row] }

/-- A sequence of write_batch calls. -/
def runWrites (st : StorageState) : List (List Nat × Int) → StorageState
  | [] => st
  | (d, t) :: rest => runWrites (writeBatch st d t) rest

/-- The projection of an index row returned by list_batches. -/
structure BatchMetadata where
  batchId : String
  eventCount : Int
  compressedSize : Int
  createdAt : Int
deriving DecidableEq, Repr

/-- EventStorage::list_batches: all rows ordered by primary key, which is
insertion order. -/
def listBatches (st : StorageState) : List BatchMetadata :=
  st.rows.map (fun r => ⟨r.batchId, r.eventCount, r.compressedSize, r.createdAt⟩)

/-- The storage invariant: batch ids are the dense sequence 1..counter in
order; every indexed row has its file present with exactly the recorded
byte length; and in the operation trace every row insert is preceded by the
write of its file with that byte length. -/
def StorageInv (st : StorageState) : Prop :=
  st.rows.map BatchRow.batchId =
    (List.range st.batchCounter).map (fun i => batchIdString (i + 1)) ∧
  (∀ row ∈ st.rows, ∃ bytes, (row.filePath, bytes) ∈ st.files ∧
      (bytes.length : Int) = row.compressedSize) ∧
  (∀ (i : Nat) (row : BatchRow), st.ops[i]? = some (StorageOp.insertRow row) →
      ∃ j, j < i ∧ ∃ bytes,
        st.ops[j]? = some (StorageOp.writeFile row.filePath bytes) ∧
        (bytes.length : Int) = row.compressedSize)

theorem storageInv_init : StorageInv StorageState.init := by
  refine ⟨rfl, ?_, ?_⟩
  · intro row h; simp [StorageState.init] at h
  · intro i row h; simp [StorageState.init] at h

theorem storageInv_writeBatch (st : StorageState) (d : List Nat) (t : Int)
    (h : StorageInv st) : StorageInv (writeBatch st d t) := by
  obtain ⟨hids, hfiles, hord⟩ := h
  refine ⟨?_, ?_, ?_⟩
  · simp only [writeBatch, List.map_append, List.range_succ, hids, List.map_cons,
      List.map_nil]
  · intro row hrow
    simp only [writeBatch, List.mem_append, List.mem_singleton] at hrow
    rcases hrow with hw | hnew
    · obtain ⟨bytes, hb, hl⟩ := hfiles row hw
      exact ⟨bytes, by simp [writeBatch, List.mem_append, hb], hl⟩
    · subst hnew
      exact ⟨d, by simp [writeBatch], rfl⟩
  · intro i row hi
    rcases Nat.lt_or_ge i st.ops.length with hlt | hge
    · rw [show (writeBatch st d t).ops = st.ops ++
          [.writeFile ("events/" ++ batchIdString (st.batchCounter + 1) ++ ".zst") d,
           .insertRow ⟨st.rows.length + 1, batchIdString (st.batchCounter + 1),
             "events/" ++ batchIdString (st.batchCounter + 1) ++ ".zst", 0,
             (d.length : Int), t⟩] from rfl,
        List.getElem?_append] at hi
      simp only [hlt, if_pos] at hi
      obtain ⟨j, hj, bytes, hjget, hblen⟩ := hord i row hi
      refine ⟨j, hj, bytes, ?_, hblen⟩
      rw [show (writeBatch st d t).ops = st.ops ++
          [.writeFile ("events/" ++ batchIdString (st.batchCounter + 1) ++ ".zst") d,
           .insertRow ⟨st.rows.length + 1, batchIdString (st.batchCounter + 1),
             "events/" ++ batchIdString (st.batchCounter + 1) ++ ".zst", 0,
             (d.length : Int), t⟩] from rfl,
        List.getElem?_append]
      rw [if_pos (Nat.lt_trans hj hlt)]
      exact hjget
    · obtain ⟨k, rfl⟩ := Nat.exists_eq_add_of_le hge
      rw [show (writeBatch st d t).ops = st.ops ++
          [.writeFile ("events/" ++ batchIdString (st.batchCounter + 1) ++ ".zst") d,
           .insertRow ⟨st.rows.length + 1, batchIdString (st.batchCounter + 1),
             "events/" ++ batchIdString (st.batchCounter + 1) ++ ".zst", 0,
             (d.length : Int), t⟩] from rfl,
        List.getElem?_append] at hi
      simp only [Nat.not_lt.mpr (Nat.le_add_right _ _), if_neg, Nat.add_sub_cancel_left,
        not_false_iff] at hi
      match k, hi with
      | 1, hi =>
          have hrow : row = ⟨st.rows.length + 1, batchIdString (st.batchCounter + 1),
              "events/" ++ batchIdString (st.batchCounter + 1) ++ ".zst", 0,
              (d.length : Int), t⟩ := by
            simpa using hi.symm
          refine ⟨st.ops.length, Nat.lt_add_of_pos_right (by decide), d, ?_, by rw [hrow]⟩
          rw [show (writeBatch st d t).ops = st.ops ++
              [.writeFile ("events/" ++ batchIdString (st.batchCounter + 1) ++ ".zst") d,
               .insertRow ⟨st.rows.length + 1, batchIdString (st.batchCounter + 1),
                 "events/" ++ batchIdString (st.batchCounter + 1) ++ ".zst", 0,
                 (d.length : Int), t⟩] from rfl,
            List.getElem?_append]
          simp [hrow]

theorem storageInv_runWrites :
    ∀ (ds : List (List Nat × Int)) (st : StorageState),
      StorageInv st → StorageInv (runWrites st ds)
  | [], _, h => h
  | (d, t) :: rest, st, h =>
      storageInv_runWrites rest (writeBatch st d t) (storageInv_writeBatch st d t h)

theorem runWrites_counter :
    ∀ (ds : List (List Nat × Int)) (st : StorageState),
      (runWrites st ds).batchCounter = st.batchCounter + ds.length
  | [], _ => rfl
  | (d, t) :: rest, st => by
      rw [runWrites, runWrites_counter rest]
      simp [writeBatch, Nat.add_comm, Nat.add_assoc, Nat.add_left_comm]

/-! ## Claim C5 -/

/-- C5: over any sequence of write_batch calls on a fresh storage, the
allocated batch ids are exactly batch_00000001, batch_00000002, ... in
order — dense from 1, no gaps, no reuse; every indexed row references a
file that exists with byte length equal to the row compressed_size column;
and in the durable-operation trace each index insert is preceded by the
full write of its batch file. -/
theorem write_batch_dense_ids_and_files (ds : List (List Nat × Int)) :
    (runWrites StorageState.init ds).batchCounter = ds.length ∧
    (runWrites StorageState.init ds).rows.map BatchRow.batchId =
      (List.range ds.length).map (fun i => batchIdString (i + 1)) ∧
    (∀ row ∈ (runWrites StorageState.init ds).rows,
      ∃ bytes, (row.filePath, bytes) ∈ (runWrites StorageState.init ds).files ∧
        (bytes.length : Int) = row.compressedSize) ∧
    (∀ (i : Nat) (row : BatchRow),
      (runWrites StorageState.init ds).ops[i]? = some (StorageOp.insertRow row) →
      ∃ j, j < i ∧ ∃ bytes,
        (runWrites StorageState.init ds).ops[j]? =
          some (StorageOp.writeFile row.filePath bytes) ∧
        (bytes.length : Int) = row.compressedSize) ∧
    batchIdString 1 = "batch_00000001" ∧
    batchIdString 2 = "batch_00000002" := by
  have hinv := storageInv_runWrites ds StorageState.init storageInv_init
  have hcnt := runWrites_counter ds StorageState.init
  obtain ⟨hids, hfiles, hord⟩ := hinv
  refine ⟨by simpa [StorageState.init] using hcnt, ?_, hfiles, hord, by decide, by decide⟩
  rw [hids, hcnt]
  simp [StorageState.init]

/-- One concrete write of a three-byte payload at epoch second 100. -/
def dsW : List (List Nat × Int) := [([1, 2, 3], 100)]

/-- The index row that concrete write produces. -/
def rowW : BatchRow :=
  ⟨1, "batch_00000001", "events/batch_00000001.zst", 0, 3, 100⟩

/-- C5 witness: the dense-ids theorem applied to the single concrete write,
discharging the row-membership hypothesis on its index row. -/
theorem write_batch_dense_ids_and_files_witness :
    ∃ bytes, (rowW.filePath, bytes) ∈ (runWrites StorageState.init dsW).files ∧
      (bytes.length : Int) = rowW.compressedSize :=
  (write_batch_dense_ids_and_files dsW).2.2.1 rowW (by decide)

/-! ## Claim C10 -/

/-- C10: every index row ever inserted by write_batch carries the constant
event_count 0 (the source hard-codes the value with a TODO), so
list_batches reports event_count 0 for every batch. -/
theorem write_batch_event_count_always_zero (ds : List (List Nat × Int)) :
    (∀ row ∈ (runWrites StorageState.init ds).rows, row.eventCount = 0) ∧
    (∀ m ∈ listBatches (runWrites StorageState.init ds), m.eventCount = 0) := by
  have hzero : ∀ (ds : List (List Nat × Int)) (st : StorageState),
      (∀ row ∈ st.rows, row.eventCount = 0) →
      ∀ row ∈ (runWrites st ds).rows, row.eventCount = 0 := by
    intro ds
    induction ds with
    | nil => intro st h; exact h
    | cons p rest ih =>
        intro st h
        obtain ⟨d, t⟩ := p
        refine ih (writeBatch st d t) ?_
        intro row hrow
        simp only [writeBatch, List.mem_append, List.mem_singleton] at hrow
        rcases hrow with hw | hnew
        · exact h row hw
        · subst hnew; rfl
  have hrows := hzero ds StorageState.init (by intro row h; simp [StorageState.init] at h)
  refine ⟨hrows, ?_⟩
  intro m hm
  simp only [listBatches, List.mem_map] at hm
  obtain ⟨row, hrow, rfl⟩ := hm
  exact hrows row hrow

/-- C10 witness: the zero-event-count theorem applied to the single
concrete write, discharging the membership hypothesis on its row. -/
theorem write_batch_event_count_always_zero_witness : rowW.eventCount = 0 :=
  (write_batch_event_count_always_zero dsW).1 rowW (by decide)

/-! ## HTTP interceptor — src/packages/engine/src/interception/http_interceptor.rs -/

/-- The pieces of a hyper request that handle_request consults. -/
structure HttpRequest where
  uriHost : Option String
  hostHeader : Option String
  pathAndQuery : Option String
  method : String
  body : List Nat
deriving DecidableEq, Repr

/-- A buffered response. -/
structure HttpResponse where
  status : Nat
  body : String
deriving DecidableEq, Repr

/-- The host-header value stripped of its port: split at the first colon and
take the first segment. -/
def stripPort (h : String) : String :=
  String.mk (h.data.takeWhile (fun c => c ≠ ':'))

/-- Host extraction in handle_request: the URI host, else the host header
stripped of port, else the literal unknown. -/
def extractHost (req : HttpRequest) : String :=
  match req.uriHost with
  | some h => h
  | none =>
      match req.hostHeader with
      | some h => stripPort h
      | none => "unknown"

/-- HttpInterceptor::handle_request. The interceptor holds no recorder
handle and its body constructs no Event anywhere, so alongside the response
the model returns the list of recorder invocations the handler performs,
which is empty on every path. The forward to the mock (forward_to_mock via
the hyper client) is abstracted as a function from the rewritten target URI
to the mock outcome. -/
def handleRequest (table : RoutingTable)
    (forward : String → Except String HttpResponse)
    (req : HttpRequest) : HttpResponse × List Event :=
  let host := extractHost req
  match lookup table host with
  | some route =>
      match forward (route.target ++ req.pathAndQuery.getD "/") with
      | .ok resp => (resp, [])
      | .error _ => (⟨502, "Failed to reach mock service"⟩, [])
  | none => (⟨502, "No mock service configured for this host"⟩, [])

/-- The concrete C6 route, request, and mock used by the counterexample. -/
def routeC6 : Route := ⟨"api.openai.com", "http://localhost:8080", none, 0⟩

def reqC6 : HttpRequest :=
  ⟨none, some "api.openai.com", some "/v1/chat/completions", "POST", [123, 125]⟩

def mockOkC6 : String → Except String HttpResponse :=
  fun _ => .ok ⟨200, "mock-ok"⟩

/-! ## Claim C6 -/

/-- C6 counterexample: for a request whose host api.openai.com has a route
and whose forward succeeds with status 200, handle_request performs zero
recorder invocations — no external-call-made, no external-call-completed —
not the two events the claim describes. -/
theorem handle_request_emits_no_events_counterexample :
    (handleRequest [routeC6] mockOkC6 reqC6).1 = ⟨200, "mock-ok"⟩ ∧
    (handleRequest [routeC6] mockOkC6 reqC6).2 = [] ∧
    (handleRequest [routeC6] mockOkC6 reqC6).2.length ≠ 2 ∧
    ¬ ∃ e ∈ (handleRequest [routeC6] mockOkC6 reqC6).2,
        e.eventType = EventType.externalCallMade := by
  refine ⟨by decide, by decide, by decide, ?_⟩
  rintro ⟨e, he, -⟩
  have h2 : (handleRequest [routeC6] mockOkC6 reqC6).2 = [] := by decide
  rw [h2] at he
  simp at he

/-- C6 amended: handle_request emits no events at all; it returns the mock
response when the route lookup and the forward succeed, a 502 with the
fixed forward-failure message when the forward fails, and a 502 with the
fixed route-miss message when no route exists. -/
theorem handle_request_emits_no_events (table : RoutingTable)
    (forward : String → Except String HttpResponse) (req : HttpRequest) :
    (handleRequest table forward req).2 = [] ∧
    (∀ route, lookup table (extractHost req) = some route →
      (∀ resp, forward (route.target ++ req.pathAndQuery.getD "/") = .ok resp →
        (handleRequest table forward req).1 = resp) ∧
      (∀ e, forward (route.target ++ req.pathAndQuery.getD "/") = .error e →
        (handleRequest table forward req).1 = ⟨502, "Failed to reach mock service"⟩)) ∧
    (lookup table (extractHost req) = none →
      (handleRequest table forward req).1 =
        ⟨502, "No mock service configured for this host"⟩) := by
  refine ⟨?_, ?_, ?_⟩
  · unfold handleRequest
    rcases hl : lookup table (extractHost req) with - | route
    · simp [hl]
    · rcases hf : forward (route.target ++ req.pathAndQuery.getD "/") with e | resp
      · simp [hl, hf]
      · simp [hl, hf]
  · intro route hl
    constructor
    · intro resp hf
      unfold handleRequest
      simp [hl, hf]
    · intro e hf
      unfold handleRequest
      simp [hl, hf]
  · intro hl
    unfold handleRequest
    simp [hl]

/-- C6 amended witness: the amended theorem applied to the concrete route,
mock, and request of the counterexample. -/
theorem handle_request_emits_no_events_witness :
    (handleRequest [routeC6] mockOkC6 reqC6).2 = [] ∧
    (handleRequest [routeC6] mockOkC6 reqC6).1 = ⟨200, "mock-ok"⟩ :=
  ⟨(handle_request_emits_no_events [routeC6] mockOkC6 reqC6).1,
    ((handle_request_emits_no_events [routeC6] mockOkC6 reqC6).2.1 routeC6
      (by decide)).1 ⟨200, "mock-ok"⟩ rfl⟩

/-! ## Agent pool — src/packages/engine/src/runtime/agent_pool.rs -/

/-- Agents actually spawned by initialize_pool: pool_size / num_types per
supported type, so num_types * (pool_size / num_types) in total. -/
def spawnedCount (poolSize numTypes : Nat) : Nat :=
  numTypes * (poolSize / numTypes)

/-- The pool state: the configured size, the number of supported interpreter
kinds, the available Vec (modelled top-first: the Vec pops its back, here
the head), the semaphore permit count, the agents currently borrowed by
callers (whose permits were forgotten), and the agents retired after a
failed reset. -/
structure PoolState where
  poolSize : Nat
  numTypes : Nat
  available : List Nat
  permits : Nat
  held : List Nat
  retired : Nat
deriving DecidableEq, Repr

/-- The pool as built by with_config + initialize_pool: the semaphore starts
at pool_size while only spawnedCount agents are actually pushed. -/
def PoolState.init (poolSize numTypes : Nat) : PoolState :=
  ⟨poolSize, numTypes, List.range (spawnedCount poolSize numTypes), poolSize, [], 0⟩

/-- An interleaving step: an acquire, a release whose reset succeeds, or a
release whose reset fails. -/
inductive PoolAction
  | acquire
  | releaseOk (agent : Nat)
  | releaseFail (agent : Nat)
deriving DecidableEq, Repr

/-- One pool operation. acquire awaits a permit (no state change while
blocked), pops the available Vec and forgets the permit; if the Vec is
empty despite the permit, the Err path drops the permit back. release
resets the agent first: on success it pushes the agent back and adds a
permit; on failure it only adds the permit and the agent is dropped. -/
def poolStep (st : PoolState) (a : PoolAction) : PoolState :=
  match a with
  | .acquire =>
      if st.permits = 0 then st
      else
        match st.available with
        | [] => st
        | agent :: rest =>
            { st with available := rest, permits := st.permits - 1,
                      held := agent :: st.held }
  | .releaseOk agent =>
      if agent ∈ st.held then
        { st with held := st.held.erase agent,
                  available := agent :: st.available,
                  permits := st.permits + 1 }
      else st
  | .releaseFail agent =>
      if agent ∈ st.held then
        { st with held := st.held.erase agent,
                  retired := st.retired + 1,
                  permits := st.permits + 1 }
      else st

/-- A finite interleaving of pool operations. -/
def runPool (st : PoolState) : List PoolAction → PoolState
  | [] => st
  | a :: rest => runPool (poolStep st a) rest

/-- Pool statistics, mirroring AgentPool::stats: busy is computed as
pool_size minus the length of the available Vec. -/
structure PoolStats where
  totalAgents : Nat
  availableAgents : Nat
  busyAgents : Nat
deriving DecidableEq, Repr

def PoolState.stats (st : PoolState) : PoolStats :=
  ⟨st.poolSize, st.available.length, st.poolSize - st.available.length⟩

/-- The pool accounting invariant: configuration fields are constant, the
spawned agents are partitioned among available, held, and retired, and the
missing semaphore permits are exactly the held agents. -/
def PoolInv (n t : Nat) (st : PoolState) : Prop :=
  st.poolSize = n ∧ st.numTypes = t ∧
  st.available.length + st.held.length + st.retired = spawnedCount n t ∧
  st.permits + st.held.length = n

theorem poolInv_init (n t : Nat) : PoolInv n t (PoolState.init n t) := by
  refine ⟨rfl, rfl, ?_, rfl⟩
  simp [PoolState.init]

theorem poolInv_step (n t : Nat) (st : PoolState) (a : PoolAction)
    (h : PoolInv n t st) : PoolInv n t (poolStep st a) := by
  obtain ⟨hn, ht, hpart, hperm⟩ := h
  rcases a with - | agent | agent
  · by_cases hz : st.permits = 0
    · simpa [poolStep, hz] using ⟨hn, ht, hpart, hperm⟩
    · rcases hav : st.available with - | ⟨ag, rest⟩
      · simpa [poolStep, hz, hav] using ⟨hn, ht, hpart, hperm⟩
      · have hstep : poolStep st .acquire =
            { st with available := rest, permits := st.permits - 1,
                      held := ag :: st.held } := by
          simp [poolStep, hz, hav]
        rw [hav, List.length_cons] at hpart
        have hpz : 0 < st.permits := Nat.pos_of_ne_zero hz
        rw [hstep]
        exact ⟨hn, ht, by simp; omega, by simp; omega⟩
  · by_cases hm : agent ∈ st.held
    · have hstep : poolStep st (.releaseOk agent) =
          { st with held := st.held.erase agent,
                    available := agent :: st.available,
                    permits := st.permits + 1 } := by
        simp [poolStep, hm]
      have hhl : 0 < st.held.length := List.length_pos_of_mem hm
      have herase : (st.held.erase agent).length = st.held.length - 1 :=
        List.length_erase_of_mem hm
      rw [hstep]
      exact ⟨hn, ht, by simp [herase]; omega, by simp [herase]; omega⟩
    · simpa [poolStep, hm] using ⟨hn, ht, hpart, hperm⟩
  · by_cases hm : agent ∈ st.held
    · have hstep : poolStep st (.releaseFail agent) =
          { st with held := st.held.erase agent,
                    retired := st.retired + 1,
                    permits := st.permits + 1 } := by
        simp [poolStep, hm]
      have hhl : 0 < st.held.length := List.length_pos_of_mem hm
      have herase : (st.held.erase agent).length = st.held.length - 1 :=
        List.length_erase_of_mem hm
      rw [hstep]
      exact ⟨hn, ht, by simp [herase]; omega, by simp [herase]; omega⟩
    · simpa [poolStep, hm] using ⟨hn, ht, hpart, hperm⟩

theorem poolInv_run (n t : Nat) :
    ∀ (acts : List PoolAction) (st : PoolState),
      PoolInv n t st → PoolInv n t (runPool st acts)
  | [], _, h => h
  | a :: rest, st, h => poolInv_run n t rest (poolStep st a) (poolInv_step n t st a h)

/-! ## Claim C7 -/

/-- C7 counterexample: pool of size 3 over 3 interpreter kinds (all 3 agents
spawned), one acquire followed by one release whose reset fails. Every
acquired agent has been released, so the pool is quiescent, yet stats
report available 2 and busy 1, not available = total = 3 and busy = 0; and
no caller holds a permit while busy reads 1, so held permits differ from
the busy count. -/
theorem pool_quiescence_counterexample :
    (runPool (PoolState.init 3 3) [.acquire, .releaseFail 0]).held = [] ∧
    (runPool (PoolState.init 3 3) [.acquire, .releaseFail 0]).stats =
      ⟨3, 2, 1⟩ ∧
    (runPool (PoolState.init 3 3) [.acquire, .releaseFail 0]).stats.busyAgents ≠ 0 ∧
    (runPool (PoolState.init 3 3) [.acquire, .releaseFail 0]).stats.availableAgents ≠ 3 ∧
    (runPool (PoolState.init 3 3) [.acquire, .releaseFail 0]).held.length ≠
      (runPool (PoolState.init 3 3) [.acquire, .releaseFail 0]).stats.busyAgents := by
  refine ⟨by decide, by decide, by decide, by decide, by decide⟩

/-- C7 amended: after any interleaving of acquire and release operations,
stats satisfy available + busy = total (busy is computed as total minus
available, and available never exceeds total), the permits held by callers
equal the held-agent count, which is busy minus the retired agents and
minus the initial shortfall total minus spawned; after quiescence,
available = spawned minus retired, so available = total and busy = 0
exactly when no reset failed and the type count divides the pool size. -/
theorem pool_accounting (n t : Nat) (acts : List PoolAction) :
    (runPool (PoolState.init n t) acts).stats.availableAgents +
      (runPool (PoolState.init n t) acts).stats.busyAgents =
      (runPool (PoolState.init n t) acts).stats.totalAgents ∧
    (runPool (PoolState.init n t) acts).stats.busyAgents =
      (runPool (PoolState.init n t) acts).held.length +
        (runPool (PoolState.init n t) acts).retired + (n - spawnedCount n t) ∧
    ((runPool (PoolState.init n t) acts).held = [] →
      (runPool (PoolState.init n t) acts).stats.availableAgents =
        spawnedCount n t - (runPool (PoolState.init n t) acts).retired ∧
      ((runPool (PoolState.init n t) acts).retired = 0 → spawnedCount n t = n →
        (runPool (PoolState.init n t) acts).stats.availableAgents = n ∧
        (runPool (PoolState.init n t) acts).stats.busyAgents = 0)) := by
  have hinv := poolInv_run n t acts (PoolState.init n t) (poolInv_init n t)
  obtain ⟨hn, -, hpart, hperm⟩ := hinv
  have hspawn : spawnedCount n t ≤ n := by
    calc spawnedCount n t = (n / t) * t := Nat.mul_comm _ _
    _ ≤ n := Nat.div_mul_le_self n t
  have havail : (runPool (PoolState.init n t) acts).available.length ≤ n := by omega
  refine ⟨?_, ?_, ?_⟩
  · simp only [PoolState.stats, hn]; omega
  · simp only [PoolState.stats, hn]; omega
  · intro hq
    rw [hq] at hpart
    simp only [List.length_nil] at hpart
    constructor
    · simp only [PoolState.stats]; omega
    · intro hr hs
      rw [hq] at hperm
      simp only [PoolState.stats, hn]
      omega

/-- C7 amended witness: the accounting theorem at pool size 3 with 3 kinds
after a clean acquire and release, where quiescence does give available =
3 and busy = 0. -/
theorem pool_accounting_witness :
    (runPool (PoolState.init 3 3) [.acquire, .releaseOk 0]).stats.availableAgents = 3 ∧
    (runPool (PoolState.init 3 3) [.acquire, .releaseOk 0]).stats.busyAgents = 0 :=
  ((pool_accounting 3 3 [.acquire, .releaseOk 0]).2.2 (by decide)).2 (by decide) (by decide)

/-! ## Agent runtime stdio protocol — src/packages/engine/src/runtime/agent_runtime.rs -/

/-- Rust str::trim: whitespace removed from both ends. -/
def strTrim (s : String) : String :=
  String.mk (((s.data.dropWhile Char.isWhitespace).reverse.dropWhile
    Char.isWhitespace).reverse)

/-- The bytes execute writes to the child stdin before flushing: the code,
one newline, the marker, one newline (code.as_bytes() then the literal
backslash-n underscore marker backslash-n). -/
def stdinPayload (code : String) : String :=
  code ++ "\n__END__\n"

/-- read_response: stdout is consumed line by line (each item carries its
trailing newline, as read_line yields it); a line whose trimmed content is
the end marker stops the loop, otherwise the raw line is appended to the
output; end of file also stops the loop. -/
def readResponse : List String → String
  | [] => ""
  | line :: rest =>
      if strTrim line = "__END__" then ""
      else line ++ readResponse rest

/-- Modelled from the claim wording, for comparison with readResponse: the
response ends at the first line exactly equal to the marker (terminator
aside), not at lines that merely trim to it. -/
def claimLineIsEnd (line : String) : Bool :=
  line == "__END__\n" || line == "__END__"

/-- Modelled from the claim wording, for comparison with readResponse. -/
def claimReadResponse : List String → String
  | [] => ""
  | line :: rest =>
      if claimLineIsEnd line then ""
      else line ++ claimReadResponse rest

/-- The stdout lines of the C8 counterexample: a padded marker line, a data
line, then the exact marker line. -/
def linesC8 : List String := [" __END__\n", "x\n", "__END__\n"]

/-! ## Claim C8 -/

/-- C8 counterexample: on stdout consisting of a line holding the marker
padded with a space, then a data line, then the exact marker line, the code
stops at the padded line (trim-equality) and returns the empty response,
while the claim (stop at the first line equal to the marker) yields the
padded line and the data line. -/
theorem read_response_trims_terminator_counterexample :
    readResponse linesC8 = "" ∧
    claimReadResponse linesC8 = " __END__\nx\n" ∧
    readResponse linesC8 ≠ claimReadResponse linesC8 := by
  refine ⟨by decide, by decide, by decide⟩

/-- C8 amended: execute writes exactly the code bytes, a newline, the
marker, and a newline to the child stdin and flushes; the response is the
concatenation, in order, of every stdout line up to but excluding the first
line whose whitespace-trimmed content equals the marker (so a padded marker
line also terminates), and nothing after that line is read. -/
theorem execute_stdio_protocol (code : String) (lines : List String) :
    stdinPayload code = code ++ "\n" ++ "__END__" ++ "\n" ∧
    readResponse lines =
      (lines.takeWhile (fun l => !(strTrim l == "__END__"))).foldr
        (fun a b => a ++ b) "" := by
  constructor
  · show code ++ "\n__END__\n" = code ++ "\n" ++ "__END__" ++ "\n"
    conv_rhs => rw [String.append_assoc, String.append_assoc]
    exact congrArg (fun s => code ++ s)
      ((by decide : ("\n" ++ ("__END__" ++ "\n") : String) = "\n__END__\n")).symm
  · induction lines with
    | nil => rfl
    | cons line rest ih =>
        by_cases h : strTrim line = "__END__"
        · simp [readResponse, h, List.takeWhile_cons]
        · simp only [readResponse, h, if_neg, List.takeWhile_cons]
          rw [ih]
          simp [h]

/-! ## Work-stealing scheduler — src/packages/engine/src/runtime/work_stealing.rs -/

/-- A simulation task, mirroring the Rust struct Task (the created-at
instant is modelled as a number). -/
structure Task where
  id : String
  code : String
  priority : Nat
  createdAt : Nat
deriving DecidableEq, Repr

/-- The scheduler queues: one FIFO deque per worker (head = front, the end
pop and steal take from) and the global injector (head = front). -/
structure SchedState where
  locals : List (List Task)
  injector : List Task
deriving DecidableEq, Repr

/-- worker.pop() on the FIFO deque of worker w. -/
def popLocal (st : SchedState) (w : Nat) : Option (Task × SchedState) :=
  match st.locals.getD w [] with
  | [] => none
  | t :: rest => some (t, { st with locals := st.locals.set w rest })

/-- global_queue.steal(). -/
def injectorSteal (st : SchedState) : Option (Task × SchedState) :=
  match st.injector with
  | [] => none
  | t :: rest => some (t, { st with injector := rest })

/-- steal_from_others: try the peers in the given (shuffled) order and take
the front of the first non-empty deque. -/
def stealFromOthers (st : SchedState) : List Nat → Option (Task × SchedState)
  | [] => none
  | i :: rest =>
      match st.locals.getD i [] with
      | [] => stealFromOthers st rest
      | t :: r => some (t, { st with locals := st.locals.set i r })

/-- One iteration of the get_task loop, for a given shuffle of the other
workers: pop the local deque first, then take from the injector, then
steal from the peers; none means every source was empty and the worker
waits on the notifier. (The transient crossbeam Steal::Retry outcome,
which merely restarts the iteration, is not represented.) -/
def getTaskIter (st : SchedState) (w : Nat) (perm : List Nat) :
    Option (Task × SchedState) :=
  match popLocal st w with
  | some r => some r
  | none =>
      match injectorSteal st with
      | some r => some r
      | none => stealFromOthers st perm

/-- The full get_task loop across notifier wake-ups: each round sees the
shuffle drawn for it and the queue state left by submitters, and the loop
returns the first task any round yields. -/
def getTaskRun (w : Nat) : List (List Nat × SchedState) → Option Task
  | [] => none
  | (perm, st) :: rounds =>
      match getTaskIter st w perm with
      | some (t, _) => some t
      | none => getTaskRun w rounds

theorem stealFromOthers_first (st : SchedState) :
    ∀ (perm₁ : List Nat) (i : Nat) (perm₂ : List Nat) (t : Task) (r : List Task),
      (∀ j ∈ perm₁, st.locals.getD j [] = []) →
      st.locals.getD i [] = t :: r →
      stealFromOthers st (perm₁ ++ i :: perm₂) =
        some (t, { st with locals := st.locals.set i r })
  | [], i, perm₂, t, r, _, hi => by
      rw [List.nil_append]
      simp only [stealFromOthers]
      rw [hi]
  | j :: perm₁, i, perm₂, t, r, hemp, hi => by
      have hj : st.locals.getD j [] = [] := hemp j (List.mem_cons_self j perm₁)
      have hrest := stealFromOthers_first st perm₁ i perm₂ t r
        (fun k hk => hemp k (List.mem_cons_of_mem j hk)) hi
      rw [List.cons_append]
      simp only [stealFromOthers]
      rw [hj]
      exact hrest

theorem stealFromOthers_none_iff (st : SchedState) :
    ∀ perm : List Nat,
      stealFromOthers st perm = none ↔ ∀ i ∈ perm, st.locals.getD i [] = []
  | [] => by simp [stealFromOthers]
  | i :: perm => by
      rcases hi : st.locals.getD i [] with - | ⟨t, r⟩
      · rw [show stealFromOthers st (i :: perm) = stealFromOthers st perm by
          simp only [stealFromOthers]; rw [hi]]
        rw [stealFromOthers_none_iff st perm]
        constructor
        · intro h k hk
          rcases List.mem_cons.mp hk with rfl | hk2
          · exact hi
          · exact h k hk2
        · intro h k hk
          exact h k (List.mem_cons_of_mem i hk)
      · rw [show stealFromOthers st (i :: perm) =
            some (t, { st with locals := st.locals.set i r }) by
          simp only [stealFromOthers]; rw [hi]]
        simp only [reduceCtorEq, false_iff, not_forall]
        refine ⟨i, ?_⟩
        simp only [List.mem_cons, true_or, exists_true_left]
        intro hcontra
        rw [hi] at hcontra
        exact List.cons_ne_nil t r hcontra

theorem getTaskIter_none_iff (st : SchedState) (w : Nat) (perm : List Nat) :
    getTaskIter st w perm = none ↔
      st.locals.getD w [] = [] ∧ st.injector = [] ∧
        ∀ i ∈ perm, st.locals.getD i [] = [] := by
  rcases hw : st.locals.getD w [] with - | ⟨t, r⟩
  · rcases hinj : st.injector with - | ⟨t, r⟩
    · rw [show getTaskIter st w perm = stealFromOthers st perm by
        simp only [getTaskIter, popLocal, injectorSteal]; rw [hw, hinj]]
      rw [stealFromOthers_none_iff st perm]
      simp [hinj]
    · rw [show getTaskIter st w perm = some (t, { st with injector := r }) by
        simp only [getTaskIter, popLocal, injectorSteal]; rw [hw, hinj]]
      simp [hinj]
  · rw [show getTaskIter st w perm =
        some (t, { st with locals := st.locals.set w r }) by
      simp only [getTaskIter, popLocal]; rw [hw]]
    constructor
    · intro hcontra; exact absurd hcontra (by simp)
    · rintro ⟨hcontra, -⟩
      exact absurd hcontra (List.cons_ne_nil t r)

/-! ## Claim C9 -/

/-- C9: per iteration, get_task pops the front of the worker's own FIFO
deque first; with the local deque empty it takes the front of the
injector; with both empty it steals the front of the first non-empty peer
deque in the shuffled peer order; it yields nothing (and so waits on the
notifier) exactly when every consulted source is empty; and across
notifier rounds the loop never gives up while some round has a task
available. -/
theorem get_task_selection_order :
    (∀ (st : SchedState) (w : Nat) (perm : List Nat) (t : Task) (rest : List Task),
      st.locals.getD w [] = t :: rest →
      getTaskIter st w perm = some (t, { st with locals := st.locals.set w rest })) ∧
    (∀ (st : SchedState) (w : Nat) (perm : List Nat) (t : Task) (rest : List Task),
      st.locals.getD w [] = [] → st.injector = t :: rest →
      getTaskIter st w perm = some (t, { st with injector := rest })) ∧
    (∀ (st : SchedState) (w : Nat) (perm₁ : List Nat) (i : Nat) (perm₂ : List Nat)
        (t : Task) (r : List Task),
      st.locals.getD w [] = [] → st.injector = [] →
      (∀ j ∈ perm₁, st.locals.getD j [] = []) →
      st.locals.getD i [] = t :: r →
      getTaskIter st w (perm₁ ++ i :: perm₂) =
        some (t, { st with locals := st.locals.set i r })) ∧
    (∀ (st : SchedState) (w : Nat) (perm : List Nat),
      getTaskIter st w perm = none ↔
        st.locals.getD w [] = [] ∧ st.injector = [] ∧
          ∀ i ∈ perm, st.locals.getD i [] = []) ∧
    (∀ (w : Nat) (rounds : List (List Nat × SchedState)),
      getTaskRun w rounds = none →
      ∀ pr ∈ rounds, pr.2.locals.getD w [] = [] ∧ pr.2.injector = [] ∧
        ∀ i ∈ pr.1, pr.2.locals.getD i [] = []) := by
  refine ⟨?_, ?_, ?_, getTaskIter_none_iff, ?_⟩
  · intro st w perm t rest h
    simp only [getTaskIter, popLocal]
    rw [h]
  · intro st w perm t rest hw hinj
    simp only [getTaskIter, popLocal, injectorSteal]
    rw [hw, hinj]
  · intro st w perm₁ i perm₂ t r hw hinj hemp hi
    rw [show getTaskIter st w (perm₁ ++ i :: perm₂) =
        stealFromOthers st (perm₁ ++ i :: perm₂) by
      simp only [getTaskIter, popLocal, injectorSteal]; rw [hw, hinj]]
    exact stealFromOthers_first st perm₁ i perm₂ t r hemp hi
  · intro w rounds
    induction rounds with
    | nil => intro _ pr hpr; simp at hpr
    | cons pr0 rest ih =>
        intro hnone pr hpr
        obtain ⟨perm0, st0⟩ := pr0
        rcases hit : getTaskIter st0 w perm0 with - | ⟨t, st1⟩
        · rcases List.mem_cons.mp hpr with rfl | hpr2
          · exact (getTaskIter_none_iff st0 w perm0).mp hit
          · refine ih ?_ pr hpr2
            simpa [getTaskRun, hit] using hnone
        · exfalso
          simp [getTaskRun, hit] at hnone

/-- A concrete task for the C9 witness. -/
def taskA : Task := ⟨"t1", "print(1)", 0, 0⟩

/-- C9 witness: the selection-order theorem applied to a one-worker state
whose local deque holds one task, and to a two-round run in which the
second round steals from a peer. -/
theorem get_task_selection_order_witness :
    getTaskIter ⟨[[taskA]], []⟩ 0 [] = some (taskA, ⟨[[]], []⟩) ∧
    getTaskIter ⟨[[], [taskA]], []⟩ 0 ([] ++ 1 :: []) =
      some (taskA, ⟨[[], []], []⟩) :=
  ⟨get_task_selection_order.1 ⟨[[taskA]], []⟩ 0 [] taskA [] rfl,
    get_task_selection_order.2.2.1 ⟨[[], [taskA]], []⟩ 0 [] 1 [] taskA []
      rfl rfl (by intro j hj; simp at hj) rfl⟩

end SentraLab
